import Mathlib

/-!
Shallow embedding of the agent sandbox repository: the extended `Agent` run
loop with terminal-tool early exit (`src/agent.py`), the PydanticAI → AG-UI
message converter (`src/utils.py`), the SQLite persistence shim (`src/db.py`),
and the `/chat/` HTTP handler (`src/app.py`), together with theorems settling
the specification claims about them.
-/

/-- A Python value that is either a `str` or some other JSON-serializable
value, identified by its `json.dumps` serialization.  Several source
functions branch on `isinstance(x, str)`. -/
inductive Val where
  | vstr (s : String)
  | vjson (s : String)
deriving DecidableEq, Repr

/-- Embeds `part.content if isinstance(part.content, str) else json.dumps(part.content)`
as it appears in `_process_tool_return_part` and the tool-call arguments
handling of `_process_model_response`. -/
def Val.asContentString : Val → String
  | .vstr s => s
  | .vjson s => s

/-- Embeds `UserPromptPart.content`: a string, or multi-modal content (a sequence of
content items, each abstracted to a string). -/
inductive UserContent where
  | str (s : String)
  | multiModal (items : List String)
deriving DecidableEq, Repr

/-- Python truthiness of `part.content` (`if ... and part.content:` in
`_process_model_request`): a string is truthy iff non-empty, a sequence is
truthy iff non-empty. -/
def UserContent.isTruthy : UserContent → Bool
  | .str s => s != ""
  | .multiModal items => !items.isEmpty

/-- One entry of `ToolReturnPart.metadata`: either a dict carrying a
`type` field (absent type abstracted as an unmatched string), or a
non-dict value. -/
inductive Meta where
  | dict (ty : String) (payload : String)
  | nonDict
deriving DecidableEq, Repr

/-- Embeds `pydantic_ai.messages.ToolReturnPart` as used by this repository. -/
structure ToolReturnPart where
  tool_name : String
  content : Val
  tool_call_id : String
  metadata : List Meta
deriving DecidableEq, Repr

/-- A part of a `ModelRequest`.  The converter and the early-exit helper only
dispatch on `UserPromptPart` and `ToolReturnPart`; every other part kind
(system prompt, retry prompt, …) is `other` and is skipped. -/
inductive RequestPart where
  | userPrompt (content : UserContent)
  | toolReturn (p : ToolReturnPart)
  | other
deriving DecidableEq, Repr

/-- A part of a `ModelResponse`.  The converter only dispatches on
`ToolCallPart` and `TextPart`; every other part kind is `other`. -/
inductive ResponsePart where
  | toolCall (tool_name : String) (args : Val) (tool_call_id : String)
  | text (content : String)
  | other
deriving DecidableEq, Repr

/-- Embeds `pydantic_ai.messages.ModelMessage`: a request or a response. -/
inductive ModelMessage where
  | request (parts : List RequestPart)
  | response (parts : List ResponsePart)
deriving DecidableEq, Repr

/-- Embeds `ag_ui.core.types.ToolCall` (with its nested `FunctionCall` flattened). -/
structure ToolCall where
  id : String
  name : String
  arguments : String
deriving DecidableEq, Repr

/-- An AG-UI message produced by the converter.  The random `uuid4` message
ids are omitted; `assistant` with `tool_calls = []` stands for an
`AssistantMessage` whose `tool_calls` field is absent. -/
inductive AGUIMessage where
  | user (content : String)
  | assistant (content : String) (tool_calls : List ToolCall)
  | tool (content : String) (tool_call_id : String)
  | event (tool_call_id : String) (content : Meta)
deriving DecidableEq, Repr

/-- The error message raised by `_process_user_prompt_part` on non-string
content. -/
def multiModalErrorMessage : String :=
  "Multi-modal content is not supported. UserPromptPart.content must be a string."

/-- Embeds `utils._process_user_prompt_part`: string content yields a `UserMessage`;
non-string content raises `TypeError`. -/
def _process_user_prompt_part : UserContent → Except String AGUIMessage
  | .str s => .ok (.user s)
  | .multiModal _ => .error multiModalErrorMessage

/-- Embeds `utils._process_tool_return_part`: build a `ToolMessage`, stringifying
non-string content via `json.dumps`. -/
def _process_tool_return_part (p : ToolReturnPart) : AGUIMessage :=
  .tool p.content.asContentString p.tool_call_id

/-- Embeds `utils._extract_metadata_events`: keep the metadata entries that are
dicts whose `type` is `STATE_SNAPSHOT` or `CUSTOM`. -/
def _extract_metadata_events (p : ToolReturnPart) : List Meta :=
  p.metadata.filter fun m =>
    match m with
    | .dict ty _ => ty == "STATE_SNAPSHOT" || ty == "CUSTOM"
    | .nonDict => false

/-- Embeds `utils._process_model_request`: convert the parts of a `ModelRequest` in
order.  A user-prompt part is processed only when its content is truthy; a
tool-return part contributes (in display mode) one event message per
extracted metadata event followed by a tool message.  A raised `TypeError`
propagates. -/
def _process_model_request : List RequestPart → Bool → Except String (List AGUIMessage)
  | [], _ => .ok []
  | .userPrompt c :: rest, convert_events =>
    if c.isTruthy then
      match _process_user_prompt_part c with
      | .error e => .error e
      | .ok m => (_process_model_request rest convert_events).map (fun ms => m :: ms)
    else
      _process_model_request rest convert_events
  | .toolReturn p :: rest, convert_events =>
    let evs : List AGUIMessage :=
      if convert_events then
        (_extract_metadata_events p).map (fun ev => .event p.tool_call_id ev)
      else []
    (_process_model_request rest convert_events).map
      (fun ms => evs ++ _process_tool_return_part p :: ms)
  | .other :: rest, convert_events => _process_model_request rest convert_events

/-- Embeds `utils._create_assistant_messages`: split into two assistant messages when
both tool calls and text are present (tool calls first), otherwise emit at
most one message. -/
def _create_assistant_messages (tool_calls : List ToolCall) (text_content : String) :
    List AGUIMessage :=
  if tool_calls ≠ [] ∧ text_content ≠ "" then
    [.assistant "" tool_calls, .assistant text_content []]
  else if tool_calls ≠ [] then
    [.assistant "" tool_calls]
  else if text_content ≠ "" then
    [.assistant text_content []]
  else
    []

/-- The `ToolCall` built by `_process_model_response` from a `ToolCallPart`. -/
def mkToolCall (tool_name : String) (args : Val) (tool_call_id : String) : ToolCall :=
  ⟨tool_call_id, tool_name, args.asContentString⟩

/-- One iteration of the part loop of `utils._process_model_response`: a
tool-call part is appended to `tool_calls`; a non-empty text part overwrites
`text_content`; everything else is skipped. -/
def responseStep (acc : List ToolCall × String) (p : ResponsePart) :
    List ToolCall × String :=
  match p with
  | .toolCall tn args tcid => (acc.1 ++ [mkToolCall tn args tcid], acc.2)
  | .text c => if c == "" then acc else (acc.1, c)
  | .other => acc

/-- The accumulation loop of `utils._process_model_response`: collect every
tool-call part in order, and keep the content of the last non-empty text
part (each non-empty text part overwrites `text_content`). -/
def responseFold (parts : List ResponsePart) : List ToolCall × String :=
  parts.foldl responseStep ([], "")

/-- Embeds `utils._process_model_response`. -/
def _process_model_response (parts : List ResponsePart) : List AGUIMessage :=
  let r := responseFold parts
  _create_assistant_messages r.1 r.2

/-- Embeds `utils.pydantic_ai2ag_ui`: dispatch each message on its kind. -/
def pydantic_ai2ag_ui : List ModelMessage → Bool → Except String (List AGUIMessage)
  | [], _ => .ok []
  | .request parts :: rest, convert_events =>
    match _process_model_request parts convert_events with
    | .error e => .error e
    | .ok ms => (pydantic_ai2ag_ui rest convert_events).map (fun tail => ms ++ tail)
  | .response parts :: rest, convert_events =>
    (pydantic_ai2ag_ui rest convert_events).map
      (fun tail => _process_model_response parts ++ tail)

/-- The tool calls that `_process_model_response` collects from a part list. -/
def toolCallsOf (parts : List ResponsePart) : List ToolCall :=
  parts.filterMap fun p =>
    match p with
    | .toolCall tn args tcid => some (mkToolCall tn args tcid)
    | _ => none

/-- The contents of the non-empty text parts of a part list, in order. -/
def nonemptyTexts (parts : List ResponsePart) : List String :=
  parts.filterMap fun p =>
    match p with
    | .text c => if c == "" then none else some c
    | _ => none

/-! Embedding of `src/db.py`, the persistence shim.

The table is `messages(id INTEGER PRIMARY KEY, conversation_id TEXT,
message_list TEXT)`; `id` is assigned in increasing insertion order by the
SQL engine, so the table is embedded as a list of rows in insertion
(primary-key) order, and `ORDER BY id` is the identity on it.  The
`message_list` blob is embedded as the decoded list of messages it
serializes. -/

/-- One row of the `messages` table. -/
structure Row where
  conversation_id : String
  message_list : List ModelMessage
deriving DecidableEq, Repr

/-- Embeds `Database.add_messages`: insert one row; the engine appends it with the
next primary key. -/
def add_messages (db : List Row) (conversation_id : String)
    (messages : List ModelMessage) : List Row :=
  db ++ [⟨conversation_id, messages⟩]

/-- Embeds `Database.get_messages`: when `conversation_id` is truthy (a non-empty
string), select the rows matching it ordered by `id`; otherwise select all
rows ordered by `id`.  Then concatenate the decoded message lists with
`messages.extend(...)` row by row. -/
def get_messages (db : List Row) (conversation_id : Option String) :
    List ModelMessage :=
  let rows :=
    if (match conversation_id with
        | some cid => cid != ""
        | none => false) then
      db.filter (fun r => r.conversation_id == conversation_id.getD "")
    else db
  rows.foldl (fun acc r => acc ++ r.message_list) []

/-- Embeds `Database.get_conversations`:
`SELECT DISTINCT conversation_id FROM messages ORDER BY conversation_id`,
i.e. the distinct identifiers sorted lexicographically. -/
def get_conversations (db : List Row) : List String :=
  List.insertionSort (fun a b => a ≤ b) (db.map Row.conversation_id).dedup

/-- Embeds the callback built by `Database.create_on_complete`: decode the request user
messages, append the new messages of the run, and store them as one row keyed by
`conversation_id`. -/
def on_complete_callback (db : List Row) (conversation_id : String)
    (user_messages new_messages : List ModelMessage) : List Row :=
  add_messages db conversation_id (user_messages ++ new_messages)

/-! Embedding of `src/agent.py`, the terminal-tool early-exit run loop.

A run of the framework graph is abstracted as the trace of nodes the
`async for node in agent_run` iteration would yield if fully consumed,
together with the optional result the framework sets when the graph reaches
its natural end (`none` when the iteration would end without producing
one).  Breaking out of the loop leaves later trace nodes unvisited, so the
model calls they stand for are never made. -/

/-- A node yielded by the agent-run iteration.  `early_exit_if_terminal_node`
dispatches only on `isinstance(node, ModelRequestNode)`; every other node
kind (user-prompt, call-tools, end) is `other`. -/
inductive AgentNode where
  | modelRequest (parts : List RequestPart)
  | other
deriving DecidableEq, Repr

/-- Embeds `pydantic_ai.result.FinalResult` as built by this repository. -/
structure FinalResult where
  output : Val
  tool_name : Option String
  tool_call_id : Option String
deriving DecidableEq, Repr

/-- The first tool-return part of a part whose tool name is registered as
terminal, if any (`isinstance(part, ToolReturnPart) and part.tool_name in
terminal_tools`). -/
def terminalReturnOfPart (terminal_tools : List String) :
    RequestPart → Option ToolReturnPart
  | .toolReturn p => if p.tool_name ∈ terminal_tools then some p else none
  | _ => none

/-- The tool-return part that `early_exit_if_terminal_node` would pick at a
node: the first terminal tool return among the parts of a model-request node. -/
def terminalHit (terminal_tools : List String) : AgentNode → Option ToolReturnPart
  | .modelRequest parts => parts.findSome? (terminalReturnOfPart terminal_tools)
  | .other => none

/-- Embeds `agent.early_exit_if_terminal_node`: on a model-request node containing a
terminal tool return, build a `FinalResult` from that part and set it as
the run `EndMarker`; otherwise return `None`. -/
def early_exit_if_terminal_node (terminal_tools : List String) (node : AgentNode) :
    Option FinalResult :=
  (terminalHit terminal_tools node).map
    (fun p => ⟨p.content, some p.tool_name, some p.tool_call_id⟩)

/-- The node-iteration loop of `Agent.run`: visit nodes in order; when
`terminal_tools` is truthy (non-empty) and `early_exit_if_terminal_node`
fires, break, leaving the rest of the trace unvisited and the `EndMarker`
set.  Returns the visited nodes and the marker. -/
def runLoop (terminal_tools : List String) :
    List AgentNode → List AgentNode × Option FinalResult
  | [] => ([], none)
  | node :: rest =>
    if terminal_tools ≠ [] then
      match early_exit_if_terminal_node terminal_tools node with
      | some fr => ([node], some fr)
      | none =>
        let r := runLoop terminal_tools rest
        (node :: r.1, r.2)
    else
      let r := runLoop terminal_tools rest
      (node :: r.1, r.2)

/-- The error message of the final assertion of `Agent.run`. -/
def graphAssertMessage : String := "The graph run did not finish properly"

/-- Embeds `Agent.run`: iterate the trace; afterwards `agent_run.result` is the
`EndMarker` result when early exit set one, else the natural result; the
`assert agent_run.result is not None` aborts when neither exists. -/
def agentRun (terminal_tools : List String) (nodes : List AgentNode)
    (naturalResult : Option FinalResult) : Except String FinalResult :=
  match (runLoop terminal_tools nodes).2 with
  | some fr => .ok fr
  | none =>
    match naturalResult with
    | some fr => .ok fr
    | none => .error graphAssertMessage

/-! Embedding of the flag-driven early-exit variant.

Modelled from the spec: the flag-driven `Agent` run-loop variant is not
present under `src/` — `src/agent.py` holds only the terminal-tool variant,
and `src/test_terminal_tool.py` only declares the dependency type with the
`early_exit` field that its tool mutates.  Per the spec: "a dependency
object carries a mutable boolean (`early_exit`); after each iteration step
the loop checks the flag and, if set, synthesizes a final result and
force-sets the underlying terminal marker of the run", with the synthesized
placeholder output being the fixed string "fake end". -/

/-- One step of a flag-driven run: the node it yields, and whether the tool
code executed for this step sets `deps.early_exit` to true. -/
structure FlagNode where
  node : AgentNode
  setsFlag : Bool
deriving DecidableEq, Repr

/-- Modelled from the spec: the synthesized placeholder final result of the
flag-driven variant ("fake end"). -/
def fakeEndResult : FinalResult := ⟨.vstr "fake end", none, none⟩

/-- Modelled from the spec: the flag-driven run loop.  Each step first runs
(possibly mutating the flag), then the loop checks the flag; if set, it
synthesizes the placeholder result, force-sets the terminal marker and
stops.  Returns the visited steps, the final flag value and the marker. -/
def flagRunLoop : List FlagNode → Bool → List FlagNode × Bool × Option FinalResult
  | [], flag => ([], flag, none)
  | step :: rest, flag =>
    let flag2 := flag || step.setsFlag
    if flag2 then ([step], flag2, some fakeEndResult)
    else
      let r := flagRunLoop rest flag2
      (step :: r.1, r.2.1, r.2.2)

/-- Modelled from the spec: the `run` of the flag-driven variant: iterate, then
return the result of the terminal marker when set, else the natural result, else
fail the non-null assertion. -/
def flagAgentRun (nodes : List FlagNode) (initFlag : Bool)
    (naturalResult : Option FinalResult) : Except String FinalResult :=
  match (flagRunLoop nodes initFlag).2.2 with
  | some fr => .ok fr
  | none =>
    match naturalResult with
    | some fr => .ok fr
    | none => .error graphAssertMessage

/-! Embedding of `src/app.py`, the chat endpoint handler. -/

/-- The HTTP response of the chat handler: a 422 on a request-body
validation error, else the streamed SSE response of the run. -/
inductive ChatResponse where
  | unprocessableEntity
  | stream
deriving DecidableEq, Repr

/-- The outcome of one `POST /chat/` request: the response, the
`conversation_id` the handler computed, and the database contents after the
request completes. -/
structure ChatOutcome where
  response : ChatResponse
  conversation_id : String
  db : List Row
deriving Repr

/-- Embeds `app.chat`: read the body, compute
the conversation identifier as the threadId body field when present, else
the timestamp fallback `conv-<milliseconds>`,
validate the run input (422 on failure), then run the agent and stream the
events.  The `on_complete` persistence callback is commented out
(`# TODO: Integrate on_complete callback`), so the handler performs no
database write: the database is returned unchanged. -/
def chat (db : List Row) (threadId : Option String) (now_ms : Nat)
    (bodyValid : Bool) : ChatOutcome :=
  let conversation_id :=
    match threadId with
    | some t => t
    | none => "conv-" ++ toString now_ms
  if bodyValid then
    ⟨.stream, conversation_id, db⟩
  else
    ⟨.unprocessableEntity, conversation_id, db⟩

/-! Theorems settling the claims. -/

/-- Accumulating `messages.extend(...)` over rows equals flattening the message
lists of the rows after the accumulator. -/
theorem foldl_extend_eq_flatMap (rows : List Row) (acc : List ModelMessage) :
    rows.foldl (fun a r => a ++ r.message_list) acc
      = acc ++ rows.flatMap Row.message_list := by
  induction rows generalizing acc with
  | nil => simp
  | cons r rs ih => simp [ih, List.flatMap_cons]

/-- A sample stored message used in concrete instances. -/
def msgA : ModelMessage := .request [.userPrompt (.str "hi")]

/-- Claim C10: passing the empty string as `conversation_id` takes the
untruthy branch of `get_messages`, so it behaves exactly like
`get_messages(None)`: the messages of every row are returned in insertion order,
not just the rows whose `conversation_id` is the empty string. -/
theorem get_messages_empty_string_eq_all (db : List Row) :
    get_messages db (some "") = get_messages db none ∧
    get_messages db (some "") = db.flatMap Row.message_list := by
  refine ⟨rfl, ?_⟩
  simp [get_messages, foldl_extend_eq_flatMap]

/-- Claim C5 counterexample: with one stored row keyed `"a"`, calling
`get_messages` with the non-null identifier `""` returns that full list of
messages, not the (empty) concatenation over the rows whose
`conversation_id` matches `""`. -/
theorem get_messages_empty_id_counterexample :
    get_messages [⟨"a", [msgA]⟩] (some "") = [msgA] ∧
    (([⟨"a", [msgA]⟩] : List Row).filter
        (fun r => r.conversation_id == "")).flatMap Row.message_list = [] ∧
    get_messages [⟨"a", [msgA]⟩] (some "") ≠
      (([⟨"a", [msgA]⟩] : List Row).filter
          (fun r => r.conversation_id == "")).flatMap Row.message_list := by
  refine ⟨rfl, rfl, ?_⟩
  decide

/-- Claim C5 (amended): for every NON-EMPTY conversation identifier,
`get_messages` returns the concatenation of the decoded message lists of
exactly the rows whose `conversation_id` matches, in insertion
(primary-key) order, and `get_messages(None)` returns the concatenation
over all rows in insertion order. -/
theorem get_messages_filters_by_id (db : List Row) (cid : String) (h : cid ≠ "") :
    get_messages db (some cid)
      = (db.filter (fun r => r.conversation_id == cid)).flatMap Row.message_list ∧
    get_messages db none = db.flatMap Row.message_list := by
  constructor
  · have hb : (cid != "") = true := by simpa using h
    simp [get_messages, hb, foldl_extend_eq_flatMap]
  · simp [get_messages, foldl_extend_eq_flatMap]

/-- Witness for the amended C5 at a concrete database and identifier. -/
theorem get_messages_filters_by_id_witness :
    get_messages [⟨"a", [msgA]⟩, ⟨"b", []⟩] (some "a")
      = (([⟨"a", [msgA]⟩, ⟨"b", []⟩] : List Row).filter
          (fun r => r.conversation_id == "a")).flatMap Row.message_list ∧
    get_messages [⟨"a", [msgA]⟩, ⟨"b", []⟩] none
      = ([⟨"a", [msgA]⟩, ⟨"b", []⟩] : List Row).flatMap Row.message_list :=
  get_messages_filters_by_id [⟨"a", [msgA]⟩, ⟨"b", []⟩] "a" (by decide)

/-- Claim C6: `get_conversations` returns the conversation identifiers in
lexicographic order with no duplicates, and contains exactly the
identifiers of the inserted rows. -/
theorem get_conversations_sorted_nodup (db : List Row) :
    List.Sorted (fun a b => a ≤ b) (get_conversations db) ∧
    (get_conversations db).Nodup ∧
    ∀ s : String, s ∈ get_conversations db ↔ ∃ r ∈ db, r.conversation_id = s := by
  refine ⟨List.sorted_insertionSort _ _,
    ((List.perm_insertionSort _ _).nodup_iff).mpr (List.nodup_dedup _), ?_⟩
  intro s
  rw [get_conversations, (List.perm_insertionSort _ _).mem_iff, List.mem_dedup,
    List.mem_map]

/-- Witness for C6 at a concrete database with a duplicate identifier. -/
theorem get_conversations_sorted_nodup_witness :
    List.Sorted (fun a b => a ≤ b)
        (get_conversations [⟨"b", []⟩, ⟨"a", [msgA]⟩, ⟨"b", []⟩]) ∧
    (get_conversations [⟨"b", []⟩, ⟨"a", [msgA]⟩, ⟨"b", []⟩]).Nodup ∧
    "a" ∈ get_conversations [⟨"b", []⟩, ⟨"a", [msgA]⟩, ⟨"b", []⟩] :=
  ⟨(get_conversations_sorted_nodup _).1,
   (get_conversations_sorted_nodup _).2.1,
   ((get_conversations_sorted_nodup _).2.2 "a").mpr ⟨⟨"a", [msgA]⟩, by simp, rfl⟩⟩

/-- Claim C2 (code bug): the `/chat/` handler computes the conversation
identifier from `threadId` (or the timestamp fallback) but performs no
database write — the `on_complete` persistence callback is commented out —
while the unwired `create_on_complete` callback would have appended the
full turn (input messages plus new messages) keyed by that identifier. -/
theorem chat_does_not_persist (db : List Row) (threadId : Option String)
    (now_ms : Nat) (bodyValid : Bool)
    (user_messages new_messages : List ModelMessage) :
    (chat db threadId now_ms bodyValid).db = db ∧
    (chat db threadId now_ms bodyValid).conversation_id
      = (match threadId with
         | some t => t
         | none => "conv-" ++ toString now_ms) ∧
    on_complete_callback db (chat db threadId now_ms bodyValid).conversation_id
        user_messages new_messages
      = db ++ [⟨(chat db threadId now_ms bodyValid).conversation_id,
                user_messages ++ new_messages⟩] := by
  refine ⟨?_, ?_, rfl⟩ <;> cases bodyValid <;> rfl

/-- Claim C7: `Agent.run` raises the non-null assertion exactly when the
loop ends with no `EndMarker` set and no natural result, and returns the
produced result otherwise. -/
theorem agentRun_assert_semantics (terminal_tools : List String)
    (nodes : List AgentNode) (naturalResult : Option FinalResult) :
    (agentRun terminal_tools nodes naturalResult = .error graphAssertMessage ↔
      (runLoop terminal_tools nodes).2 = none ∧ naturalResult = none) ∧
    (∀ fr, (runLoop terminal_tools nodes).2 = some fr →
      agentRun terminal_tools nodes naturalResult = .ok fr) ∧
    (∀ fr, (runLoop terminal_tools nodes).2 = none → naturalResult = some fr →
      agentRun terminal_tools nodes naturalResult = .ok fr) := by
  unfold agentRun
  rcases h : (runLoop terminal_tools nodes).2 with _ | fr
  · rcases naturalResult with _ | nr <;> simp
  · simp

/-- Witness for C7: an empty trace with no natural result trips the
assertion. -/
theorem agentRun_assert_semantics_witness :
    agentRun [] [] none = .error graphAssertMessage :=
  (agentRun_assert_semantics [] [] none).1.mpr ⟨rfl, rfl⟩

/-- Claim C1: when the terminal-tool set contains `"secret_plan"`, the trace
contains a model-request node with a terminal tool return, and `secret_plan`
is the terminal tool being returned (every terminal hit in the trace names
it), then `Agent.run` returns a result whose output, tool name and tool
call id are those of that `ToolReturnPart`, and the loop breaks at that node: the
visited nodes are exactly the trace up to and including it, so no later
node — hence no further model call — is processed. -/
theorem terminal_tool_early_exit (terminal_tools : List String)
    (nodes : List AgentNode) (naturalResult : Option FinalResult)
    (hmem : "secret_plan" ∈ terminal_tools)
    (hex : ∃ n ∈ nodes, (terminalHit terminal_tools n).isSome)
    (honly : ∀ p ∈ nodes.filterMap (terminalHit terminal_tools),
      p.tool_name = "secret_plan") :
    ∃ i, ∃ h : i < nodes.length, ∃ p : ToolReturnPart,
      terminalHit terminal_tools (nodes.get ⟨i, h⟩) = some p ∧
      p.tool_name = "secret_plan" ∧
      agentRun terminal_tools nodes naturalResult
        = .ok ⟨p.content, some p.tool_name, some p.tool_call_id⟩ ∧
      (runLoop terminal_tools nodes).1 = nodes.take (i + 1) := by
  have hne : terminal_tools ≠ [] := by
    rintro rfl
    simp at hmem
  revert hex honly
  induction nodes with
  | nil =>
    rintro ⟨n, hn, -⟩ -
    exact absurd hn (List.not_mem_nil n)
  | cons node rest ih =>
    intro hex honly
    cases hhit : terminalHit terminal_tools node with
    | some p =>
      refine ⟨0, by simp, p, hhit, ?_, ?_, ?_⟩
      · exact honly p (List.mem_filterMap.mpr ⟨node, List.mem_cons_self _ _, hhit⟩)
      · simp [agentRun, runLoop, hne, early_exit_if_terminal_node, hhit]
      · simp [runLoop, hne, early_exit_if_terminal_node, hhit]
    | none =>
      have hex2 : ∃ n ∈ rest, (terminalHit terminal_tools n).isSome := by
        obtain ⟨n, hn, hs⟩ := hex
        rcases List.mem_cons.mp hn with rfl | hn2
        · rw [hhit] at hs
          simp at hs
        · exact ⟨n, hn2, hs⟩
      have honly2 : ∀ p ∈ rest.filterMap (terminalHit terminal_tools),
          p.tool_name = "secret_plan" := by
        intro p hp
        obtain ⟨a, ha, heq⟩ := List.mem_filterMap.mp hp
        exact honly p (List.mem_filterMap.mpr ⟨a, List.mem_cons_of_mem _ ha, heq⟩)
      obtain ⟨i, h, p, h1, h2, h3, h4⟩ := ih hex2 honly2
      have hcons1 : (runLoop terminal_tools (node :: rest)).1
          = node :: (runLoop terminal_tools rest).1 := by
        simp [runLoop, hne, early_exit_if_terminal_node, hhit]
      have hcons2 : (runLoop terminal_tools (node :: rest)).2
          = (runLoop terminal_tools rest).2 := by
        simp [runLoop, hne, early_exit_if_terminal_node, hhit]
      refine ⟨i + 1, by simpa using Nat.succ_lt_succ h, p, h1, h2, ?_, ?_⟩
      · unfold agentRun at h3 ⊢
        rw [hcons2]
        exact h3
      · rw [hcons1, h4, List.take_succ_cons]

/-- The terminal tool return of the C1 witness scenario. -/
def c1Part : ToolReturnPart := ⟨"secret_plan", .vjson "the plan", "id1", []⟩

/-- The node trace of the C1 witness scenario: a first step, the
model-request node carrying the terminal tool return, and a further node
that the early exit must leave unvisited. -/
def c1Nodes : List AgentNode :=
  [.other, .modelRequest [.other, .toolReturn c1Part], .other]

/-- Witness for C1 at a concrete terminal-tool set and trace. -/
theorem terminal_tool_early_exit_witness :
    ∃ i, ∃ h : i < c1Nodes.length, ∃ p : ToolReturnPart,
      terminalHit ["secret_plan"] (c1Nodes.get ⟨i, h⟩) = some p ∧
      p.tool_name = "secret_plan" ∧
      agentRun ["secret_plan"] c1Nodes none
        = .ok ⟨p.content, some p.tool_name, some p.tool_call_id⟩ ∧
      (runLoop ["secret_plan"] c1Nodes).1 = c1Nodes.take (i + 1) :=
  terminal_tool_early_exit ["secret_plan"] c1Nodes none (by decide) (by decide)
    (by decide)

/-- Claim C3 (modelled from the spec): in the flag-driven variant, a run
whose dependency starts with `early_exit = False` and whose trace contains
a step that sets the flag continues normally through the steps before the
first flag-setting step, then ends at the loop check right after it with
the synthesized placeholder result: the visited steps are exactly the trace
up to and including that step, the terminal marker is force-set, and the
run returns the placeholder. -/
theorem flag_early_exit (nodes : List FlagNode) (naturalResult : Option FinalResult)
    (hset : ∃ step ∈ nodes, step.setsFlag = true) :
    ∃ i, ∃ h : i < nodes.length,
      (nodes.get ⟨i, h⟩).setsFlag = true ∧
      (∀ step ∈ nodes.take i, step.setsFlag = false) ∧
      (flagRunLoop nodes false).1 = nodes.take (i + 1) ∧
      (flagRunLoop nodes false).2.2 = some fakeEndResult ∧
      flagAgentRun nodes false naturalResult = .ok fakeEndResult := by
  revert hset
  induction nodes with
  | nil =>
    rintro ⟨step, hn, -⟩
    exact absurd hn (List.not_mem_nil step)
  | cons step rest ih =>
    intro hset
    cases hsf : step.setsFlag with
    | true =>
      refine ⟨0, by simp, hsf, by simp, ?_, ?_, ?_⟩
      · simp [flagRunLoop, hsf]
      · simp [flagRunLoop, hsf]
      · simp [flagAgentRun, flagRunLoop, hsf]
    | false =>
      have hset2 : ∃ s ∈ rest, s.setsFlag = true := by
        obtain ⟨s, hs, hf⟩ := hset
        rcases List.mem_cons.mp hs with rfl | h2
        · rw [hsf] at hf
          exact absurd hf (by simp)
        · exact ⟨s, h2, hf⟩
      obtain ⟨i, h, h1, h2, h3, h4, h5⟩ := ih hset2
      have hcons1 : (flagRunLoop (step :: rest) false).1
          = step :: (flagRunLoop rest false).1 := by
        simp [flagRunLoop, hsf]
      have hcons2 : (flagRunLoop (step :: rest) false).2.2
          = (flagRunLoop rest false).2.2 := by
        simp [flagRunLoop, hsf]
      refine ⟨i + 1, by simpa using Nat.succ_lt_succ h, h1, ?_, ?_, ?_, ?_⟩
      · intro s hs
        rw [List.take_succ_cons] at hs
        rcases List.mem_cons.mp hs with rfl | hs2
        · exact hsf
        · exact h2 s hs2
      · rw [hcons1, h3, List.take_succ_cons]
      · rw [hcons2]
        exact h4
      · unfold flagAgentRun at h5 ⊢
        rw [hcons2]
        exact h5

/-- The step trace of the C3 witness scenario: one ordinary step, a step
whose tool sets the flag, and a further step the early exit must leave
unvisited. -/
def c3Nodes : List FlagNode :=
  [⟨.other, false⟩, ⟨.other, true⟩, ⟨.other, false⟩]

/-- Witness for C3 at a concrete step trace. -/
theorem flag_early_exit_witness :
    ∃ i, ∃ h : i < c3Nodes.length,
      (c3Nodes.get ⟨i, h⟩).setsFlag = true ∧
      (∀ step ∈ c3Nodes.take i, step.setsFlag = false) ∧
      (flagRunLoop c3Nodes false).1 = c3Nodes.take (i + 1) ∧
      (flagRunLoop c3Nodes false).2.2 = some fakeEndResult ∧
      flagAgentRun c3Nodes false none = .ok fakeEndResult :=
  flag_early_exit c3Nodes none (by decide)

/-- Evaluates `_create_assistant_messages` with both tool calls and text present:
two messages, tool calls first. -/
theorem create_assistant_both (tcs : List ToolCall) (txt : String)
    (h1 : tcs ≠ []) (h2 : txt ≠ "") :
    _create_assistant_messages tcs txt
      = [.assistant "" tcs, .assistant txt []] := by
  simp [_create_assistant_messages, h1, h2]

/-- Evaluates `_create_assistant_messages` with text only: one text message. -/
theorem create_assistant_text_only (txt : String) (h2 : txt ≠ "") :
    _create_assistant_messages [] txt = [.assistant txt []] := by
  simp [_create_assistant_messages, h2]

/-- The part loop of `_process_model_response` from any accumulator: the
collected tool calls are appended, and the final text is the last non-empty
text content, defaulting to the accumulator text. -/
theorem foldl_responseStep (parts : List ResponsePart) :
    ∀ acc : List ToolCall × String,
      parts.foldl responseStep acc
        = (acc.1 ++ toolCallsOf parts, (nonemptyTexts parts).getLastD acc.2) := by
  induction parts with
  | nil =>
    intro acc
    simp [toolCallsOf, nonemptyTexts]
  | cons p rest ih =>
    intro acc
    cases p with
    | toolCall tn args tcid =>
      have hstep : responseStep acc (ResponsePart.toolCall tn args tcid)
          = (acc.1 ++ [mkToolCall tn args tcid], acc.2) := rfl
      have ht : toolCallsOf (ResponsePart.toolCall tn args tcid :: rest)
          = mkToolCall tn args tcid :: toolCallsOf rest := by
        simp [toolCallsOf, List.filterMap_cons]
      have hn : nonemptyTexts (ResponsePart.toolCall tn args tcid :: rest)
          = nonemptyTexts rest := by
        simp [nonemptyTexts, List.filterMap_cons]
      rw [List.foldl_cons, hstep, ih, ht, hn]
      simp
    | text c =>
      by_cases hc : c = ""
      · subst hc
        have hstep : responseStep acc (ResponsePart.text "") = acc := rfl
        have ht : toolCallsOf (ResponsePart.text "" :: rest)
            = toolCallsOf rest := by
          simp [toolCallsOf, List.filterMap_cons]
        have hn : nonemptyTexts (ResponsePart.text "" :: rest)
            = nonemptyTexts rest := by
          simp [nonemptyTexts, List.filterMap_cons]
        rw [List.foldl_cons, hstep, ih, ht, hn]
      · have hcb : (c == "") = false := by simpa using hc
        have hstep : responseStep acc (ResponsePart.text c) = (acc.1, c) := by
          simp [responseStep, hcb]
        have ht : toolCallsOf (ResponsePart.text c :: rest)
            = toolCallsOf rest := by
          simp [toolCallsOf, List.filterMap_cons]
        have hn : nonemptyTexts (ResponsePart.text c :: rest)
            = c :: nonemptyTexts rest := by
          simp [nonemptyTexts, List.filterMap_cons, hcb, hc]
        rw [List.foldl_cons, hstep, ih, ht, hn, List.getLastD_cons]
    | other =>
      have hstep : responseStep acc ResponsePart.other = acc := rfl
      have ht : toolCallsOf (ResponsePart.other :: rest) = toolCallsOf rest := by
        simp [toolCallsOf, List.filterMap_cons]
      have hn : nonemptyTexts (ResponsePart.other :: rest) = nonemptyTexts rest := by
        simp [nonemptyTexts, List.filterMap_cons]
      rw [List.foldl_cons, hstep, ih, ht, hn]

/-- Shows `responseFold` computes exactly the collected tool calls and the last
non-empty text content (the empty string when there is none). -/
theorem responseFold_spec (parts : List ResponsePart) :
    responseFold parts = (toolCallsOf parts, (nonemptyTexts parts).getLastD "") := by
  simpa [responseFold] using foldl_responseStep parts ([], "")

/-- Every entry of `nonemptyTexts` is a non-empty string. -/
theorem nonemptyTexts_ne_empty (parts : List ResponsePart) :
    ∀ c ∈ nonemptyTexts parts, c ≠ "" := by
  intro c hc
  obtain ⟨p, -, hp⟩ := List.mem_filterMap.mp hc
  cases p with
  | toolCall tn args tcid => simp at hp
  | other => simp at hp
  | text c2 =>
    by_cases h2 : c2 == ""
    · simp [h2] at hp
    · simp [h2] at hp
      subst hp
      simpa using h2

/-- The last element of a non-empty list via `getLastD` is a member. -/
theorem getLastD_mem_of_ne_nil {α : Type} (l : List α) (d : α) (h : l ≠ []) :
    l.getLastD d ∈ l := by
  rw [List.getLastD_eq_getLast?]
  cases hg : l.getLast? with
  | none => exact absurd (List.getLast?_eq_none_iff.mp hg) h
  | some a => simpa using List.mem_of_mem_getLast? (by simp [hg])

/-- Claim C4: a response with at least one tool-call part and at least one
non-empty text part converts to exactly two assistant messages: first one
carrying all the tool calls with empty content, then one carrying the (last
non-empty) text with no tool calls. -/
theorem response_with_calls_and_text (parts : List ResponsePart)
    (htc : toolCallsOf parts ≠ []) (htx : nonemptyTexts parts ≠ []) :
    _process_model_response parts
      = [.assistant "" (toolCallsOf parts),
         .assistant ((nonemptyTexts parts).getLastD "") []] := by
  have hlast : (nonemptyTexts parts).getLastD "" ≠ "" :=
    nonemptyTexts_ne_empty parts _ (getLastD_mem_of_ne_nil _ _ htx)
  show _create_assistant_messages (responseFold parts).1 (responseFold parts).2 = _
  rw [responseFold_spec]
  exact create_assistant_both _ _ htc hlast

/-- The response parts of the C4 witness: one tool call and one non-empty
text (after an empty one). -/
def c4Parts : List ResponsePart :=
  [.toolCall "t" (.vstr "a") "id1", .text "", .text "hello", .other]

/-- Witness for C4 at a concrete response. -/
theorem response_with_calls_and_text_witness :
    _process_model_response c4Parts
      = [.assistant "" (toolCallsOf c4Parts),
         .assistant ((nonemptyTexts c4Parts).getLastD "") []] :=
  response_with_calls_and_text c4Parts (by decide) (by decide)

/-- The content a converted assistant message carries. -/
def assistantContent : AGUIMessage → String
  | .assistant c _ => c
  | _ => ""

/-- Claim C9: when a response carries two or more non-empty text parts, the
conversion keeps only the last one: the output is exactly what it would be
with that single text, the content of every produced message is either empty or
the last non-empty text, and one message does carry it — the earlier text
parts are overwritten, not concatenated. -/
theorem last_text_part_wins (parts : List ResponsePart)
    (h2 : 2 ≤ (nonemptyTexts parts).length) :
    ∃ last, (nonemptyTexts parts).getLast? = some last ∧ last ≠ "" ∧
      _process_model_response parts
        = _create_assistant_messages (toolCallsOf parts) last ∧
      (∀ m ∈ _process_model_response parts,
        assistantContent m = "" ∨ assistantContent m = last) ∧
      (∃ m ∈ _process_model_response parts, assistantContent m = last) := by
  have htx : nonemptyTexts parts ≠ [] := by
    intro h
    rw [h] at h2
    simp at h2
  have hmem := getLastD_mem_of_ne_nil (nonemptyTexts parts) "" htx
  have hlast : (nonemptyTexts parts).getLastD "" ≠ "" :=
    nonemptyTexts_ne_empty parts _ hmem
  have hproc : _process_model_response parts
      = _create_assistant_messages (toolCallsOf parts)
          ((nonemptyTexts parts).getLastD "") := by
    show _create_assistant_messages (responseFold parts).1 (responseFold parts).2 = _
    rw [responseFold_spec]
  have hget : (nonemptyTexts parts).getLast?
      = some ((nonemptyTexts parts).getLastD "") := by
    cases hg : (nonemptyTexts parts).getLast? with
    | none => exact absurd (List.getLast?_eq_none_iff.mp hg) htx
    | some a =>
      rw [List.getLastD_eq_getLast?, hg]
      rfl
  refine ⟨(nonemptyTexts parts).getLastD "", hget, hlast, hproc, ?_, ?_⟩
  · by_cases htc : toolCallsOf parts = []
    · rw [hproc, htc, create_assistant_text_only _ hlast]
      intro m hm
      rw [List.mem_singleton] at hm
      subst hm
      right
      rfl
    · rw [hproc, create_assistant_both _ _ htc hlast]
      intro m hm
      rcases List.mem_cons.mp hm with rfl | hm2
      · left
        rfl
      · rw [List.mem_singleton] at hm2
        subst hm2
        right
        rfl
  · by_cases htc : toolCallsOf parts = []
    · rw [hproc, htc, create_assistant_text_only _ hlast]
      exact ⟨_, List.mem_singleton_self _, rfl⟩
    · rw [hproc, create_assistant_both _ _ htc hlast]
      refine ⟨AGUIMessage.assistant ((nonemptyTexts parts).getLastD "") [], ?_, rfl⟩
      simp

/-- The response parts of the C9 witness: two non-empty texts around a tool
call. -/
def c9Parts : List ResponsePart :=
  [.text "first", .toolCall "t" (.vjson "j") "id2", .text "second"]

/-- Witness for C9 at a concrete response with two non-empty texts. -/
theorem last_text_part_wins_witness :
    ∃ last, (nonemptyTexts c9Parts).getLast? = some last ∧ last ≠ "" ∧
      _process_model_response c9Parts
        = _create_assistant_messages (toolCallsOf c9Parts) last ∧
      (∀ m ∈ _process_model_response c9Parts,
        assistantContent m = "" ∨ assistantContent m = last) ∧
      (∃ m ∈ _process_model_response c9Parts, assistantContent m = last) :=
  last_text_part_wins c9Parts (by decide)

/-- Claim C8 counterexample: a request whose single user-prompt part has the
string `""` as content converts successfully to the empty message list — no
user message with that content is emitted (the part is skipped by the
truthiness guard), contradicting the claim that every string-content
user-prompt part yields a user message. -/
theorem user_prompt_empty_string_skipped :
    _process_model_request [.userPrompt (.str "")] false = .ok [] ∧
    AGUIMessage.user "" ∉ ([] : List AGUIMessage) := by
  refine ⟨rfl, ?_⟩
  decide

/-- Claim C8 (amended): within conversion, a user-prompt part whose content
is a non-empty string emits a user message with that content at the front
of the remaining conversion; a user-prompt part whose content is non-string
and non-empty raises the multi-modal type error; and a user-prompt part
with falsy content (the empty string or an empty content sequence) is
skipped — no message and no error. -/
theorem user_prompt_conversion (s : String) (items : List String)
    (rest : List RequestPart) (convert_events : Bool)
    (hs : s ≠ "") (hi : items ≠ []) :
    _process_model_request (.userPrompt (.str s) :: rest) convert_events
      = (_process_model_request rest convert_events).map
          (fun ms => .user s :: ms) ∧
    _process_model_request (.userPrompt (.multiModal items) :: rest) convert_events
      = .error multiModalErrorMessage ∧
    _process_model_request (.userPrompt (.str "") :: rest) convert_events
      = _process_model_request rest convert_events ∧
    _process_model_request (.userPrompt (.multiModal []) :: rest) convert_events
      = _process_model_request rest convert_events := by
  refine ⟨?_, ?_, ?_, ?_⟩
  · have ht : (UserContent.str s).isTruthy = true := by
      simpa [UserContent.isTruthy] using hs
    simp [_process_model_request, ht, _process_user_prompt_part]
  · have ht : (UserContent.multiModal items).isTruthy = true := by
      simpa [UserContent.isTruthy] using hi
    simp [_process_model_request, ht, _process_user_prompt_part]
  · simp [_process_model_request, UserContent.isTruthy]
  · simp [_process_model_request, UserContent.isTruthy]

/-- Witness for the amended C8 at concrete contents. -/
theorem user_prompt_conversion_witness :
    _process_model_request [.userPrompt (.str "hi")] false
      = (_process_model_request [] false).map (fun ms => .user "hi" :: ms) ∧
    _process_model_request [.userPrompt (.multiModal ["image"])] false
      = .error multiModalErrorMessage ∧
    _process_model_request [.userPrompt (.str "")] false
      = _process_model_request [] false ∧
    _process_model_request [.userPrompt (.multiModal [])] false
      = _process_model_request [] false :=
  user_prompt_conversion "hi" ["image"] [] false (by decide) (by decide)
